import Mathlib

/-!
Verification development for the pw2 password database core.

This file gives a shallow embedding, in Lean, of the Go sources of the
pw2 repository (package `pw2`: the Database lifecycle, the repository
command runner, the glob-based path matcher, the staging and commit
engine, the sub-repository integrator), together with theorems settling
the specification claims about them.

External collaborators (the libgit2 engine, the filesystem, the spawned
subprocesses) are modelled behaviourally: each embedded operation takes
the outcomes of its external steps as explicit parameters, and records
the calls it makes as a trace of actions, so that claims about which
steps run, in which order and with which arguments, are provable.
-/

namespace PW2

/-! ## Errors

`GitError` mirrors git2go's `*git.GitError` (a code plus a message);
only the codes the sources inspect are distinguished.  `OsError` stands
for the errors returned by the `os` package calls the sources make, and
`CmdError` for a subprocess failure surfaced by `(*exec.Cmd).Run`. -/

inductive GitCode where
  | errNotFound
  | errUnbornBranch
  | other (n : Nat)
  deriving Repr, DecidableEq

structure GitError where
  code : GitCode
  message : String
  deriving Repr, DecidableEq

inductive OsError where
  | exist (path : String)
  | notExist (path : String)
  | permission (path : String)
  | other (msg : String)
  deriving Repr, DecidableEq

structure CmdError where
  command : String
  arguments : List String
  deriving Repr, DecidableEq

/-! ## Package constants (from the source) -/

def blackboxSubmoduleLocation : String := "https://github.com/StackExchange/blackbox.git"

/-- `defaultMode = 0700` (octal), i.e. 448. -/
def defaultMode : Nat := 448

def gpgHomedir : String := "./gpg"

def gpgUserEmail : String := "fake@pw2.no.ms"

/-! ## Repository Command Runner (`cmd`, source `pkg/pw2/pw2.go` and its
libgit2 variant; both bodies are identical)

```go
type ioFailer struct{ E error }
func (f ioFailer) Read(b []byte) (n int, err error)  { return 0, f.E }
var stdinBlock = ioFailer{errors.New("unexpected stdin read from *exec.Cmd")}

func cmd(command string, arguments ...string) (c *exec.Cmd) {
    glog.V(2).Infof(...)
    c = exec.Command(command, arguments...)
    c.Stderr = io.MultiWriter(tabbedErrorLogger, os.Stderr)
    c.Stdout = io.MultiWriter(tabbedInfoLogger, os.Stdout)
    c.Stdin = os.Stdin
    return
}
```

The embedding records, for the constructed command, what each standard
stream is connected to. -/

/-- What a child process's standard input is wired to: the caller's real
`os.Stdin`, or a permanently failing reader that returns the given error
message on every read. -/
inductive StdinSource where
  | osStdin
  | failingReader (msg : String)
  deriving Repr, DecidableEq

/-- What a child process's output stream is wired to. -/
inductive OutSink where
  | logAndOs
  | osOnly
  deriving Repr, DecidableEq

structure Cmd where
  command : String
  arguments : List String
  stdin : StdinSource
  stdout : OutSink
  stderr : OutSink
  dir : Option String
  deriving Repr, DecidableEq

/-- `stdinBlock`: the failing reader the source declares (and, as it
turns out, never connects to anything). -/
def stdinBlock : StdinSource := .failingReader "unexpected stdin read from *exec.Cmd"

/-- `cmd(command, arguments...)` from the source: builds the
`*exec.Cmd`, wires stdout/stderr to the tabbed loggers plus the
process's own streams, and wires stdin to `os.Stdin`. -/
def cmd (command : String) (arguments : List String) : Cmd :=
  { command := command
  , arguments := arguments
  , stdin := .osStdin
  , stdout := .logAndOs
  , stderr := .logAndOs
  , dir := none }

/-- `(*Database).BlackboxCommand(command, params...)` builds
`cmd("bash", "blackbox/bin/blackbox_"+command, params...)` with its
working directory set to the database path. -/
def BlackboxCommand (dbPath : String) (command : String) (params : List String) : Cmd :=
  let c := cmd "bash" (("blackbox/bin/blackbox_" ++ command) :: params)
  { c with dir := some dbPath }

/-! ## Filesystem model

A directory's contents are a list of entries; an entry is a file or a
subdirectory with its own contents.  A path is its list of components,
relative to the root under consideration. -/

inductive Entry where
  | file (name : String)
  | dir (name : String) (children : List Entry)
  deriving Repr

abbrev Fs := List Entry

def Entry.name : Entry → String
  | .file n => n
  | .dir n _ => n

/- Depth of a directory tree: the length of the longest existing path. -/
mutual
def entryDepth : Entry → Nat
  | .file _ => 1
  | .dir _ ch => 1 + fsDepth ch

def fsDepth : Fs → Nat
  | [] => 0
  | e :: es => max (entryDepth e) (fsDepth es)
end

theorem one_le_entryDepth (e : Entry) : 1 ≤ entryDepth e := by
  cases e <;> simp [entryDepth]

theorem entryDepth_le_fsDepth {e : Entry} {es : Fs} (h : e ∈ es) :
    entryDepth e ≤ fsDepth es := by
  induction es with
  | nil => simp at h
  | cons x xs ih =>
    rcases List.mem_cons.mp h with h | h
    · subst h; simp [fsDepth]
    · have := ih h; simp [fsDepth]; omega

/-- `os.Stat` on a path relative to the root: `none` when no entry
exists, `some true` for a directory, `some false` for a regular file. -/
def statAt (es : Fs) : List String → Option Bool
  | [] => some true
  | c :: rest =>
    match es.find? (fun e => e.name == c) with
    | none => none
    | some (.file _) => if rest.isEmpty then some false else none
    | some (.dir _ ch) => if rest.isEmpty then some true else statAt ch rest

def isDirAt (es : Fs) (p : List String) : Bool := statAt es p == some true

def isFileAt (es : Fs) (p : List String) : Bool := statAt es p == some false

/-! ## Glob patterns (`path/filepath.Glob`)

The sources only ever build patterns out of literal path components and
a final `*` (`findGlob` recurses with `filepath.Join(rel, "*")`), so the
pattern language is modelled with exactly those two component forms.
`filepath.Match`'s `*` matches any single component (it never crosses a
separator, and in Go it does match a leading dot). -/

inductive Comp where
  | lit (s : String)
  | star
  deriving Repr, DecidableEq

abbrev Pattern := List Comp

def compMatch : Comp → String → Bool
  | .lit s, n => n == s
  | .star, _ => true

/-- `filepath.Glob` against the tree rooted at `es`: the existing paths
whose components match the pattern's components one-for-one.  Matches
are produced in directory order (the source's spec makes no ordering
promise beyond the primitive's own). -/
def globIn (es : Fs) : Pattern → List (List String)
  | [] => []
  | [c] => es.filterMap (fun e => if compMatch c e.name then some [e.name] else none)
  | c :: rest =>
    es.flatMap (fun e =>
      match e with
      | .file _ => []
      | .dir n ch => if compMatch c n then (globIn ch rest).map (n :: ·) else [])

theorem length_of_mem_globIn {es : Fs} {pat : Pattern} {m : List String}
    (h : m ∈ globIn es pat) : m.length = pat.length := by
  induction pat generalizing es m with
  | nil => simp [globIn] at h
  | cons c rest ih =>
    match rest with
    | [] =>
      simp only [globIn, List.mem_filterMap] at h
      obtain ⟨e, _, he⟩ := h
      by_cases hm : compMatch c e.name = true <;> simp [hm] at he
      subst he; rfl
    | c2 :: rest2 =>
      simp only [globIn, List.mem_flatMap] at h
      obtain ⟨e, _, he⟩ := h
      match e with
      | .file n => simp at he
      | .dir n ch =>
        by_cases hm : compMatch c n = true <;> simp [hm] at he
        obtain ⟨m2, hm2, hmm⟩ := he
        subst hmm
        simpa using ih hm2

theorem mem_globIn_length_le_depth {es : Fs} {pat : Pattern} {m : List String}
    (h : m ∈ globIn es pat) : m.length ≤ fsDepth es := by
  induction pat generalizing es m with
  | nil => simp [globIn] at h
  | cons c rest ih =>
    match rest with
    | [] =>
      simp only [globIn, List.mem_filterMap] at h
      obtain ⟨e, hee, he⟩ := h
      by_cases hm : compMatch c e.name = true <;> simp [hm] at he
      subst he
      have h1 := one_le_entryDepth e
      have h2 := entryDepth_le_fsDepth hee
      simpa using le_trans h1 h2
    | c2 :: rest2 =>
      simp only [globIn, List.mem_flatMap] at h
      obtain ⟨e, hee, he⟩ := h
      match e with
      | .file n => simp at he
      | .dir n ch =>
        by_cases hm : compMatch c n = true <;> simp [hm] at he
        obtain ⟨m2, hm2, hmm⟩ := he
        subst hmm
        have hrec : m2.length ≤ fsDepth ch := ih hm2
        have h2 := entryDepth_le_fsDepth hee
        simp only [entryDepth] at h2
        simp only [List.length_cons]
        omega

/-! ### Well-formed trees

A real filesystem directory never holds two entries with the same name;
several lemmas below need this. -/

mutual
def entryWF : Entry → Bool
  | .file _ => true
  | .dir _ ch => fsWF ch

def fsWF : Fs → Bool
  | [] => true
  | e :: es => entryWF e && fsWF es && !(es.any (fun x => x.name == e.name))
end

theorem find_of_mem_wf {es : Fs} {e : Entry} (hwf : fsWF es = true) (h : e ∈ es) :
    es.find? (fun x => x.name == e.name) = some e := by
  induction es with
  | nil => simp at h
  | cons x xs ih =>
    simp only [fsWF, Bool.and_eq_true, Bool.not_eq_true'] at hwf
    rcases List.mem_cons.mp h with h | h
    · subst h
      exact List.find?_cons_of_pos _ (by simp)
    · cases hb : (x.name == e.name) with
      | true =>
        exfalso
        have hxe : x.name = e.name := eq_of_beq hb
        have hany : xs.any (fun y => y.name == x.name) = true :=
          List.any_eq_true.mpr ⟨e, h, by simp [hxe]⟩
        simp [hwf.2] at hany
      | false =>
        rw [List.find?_cons_of_neg _ (by simp [hb])]
        exact ih hwf.1.2 h

theorem statAt_isSome_of_mem_globIn {es : Fs} {pat : Pattern} {m : List String}
    (hwf : fsWF es = true) (h : m ∈ globIn es pat) : (statAt es m).isSome := by
  induction pat generalizing es m with
  | nil => simp [globIn] at h
  | cons c rest ih =>
    match rest with
    | [] =>
      simp only [globIn, List.mem_filterMap] at h
      obtain ⟨e, hee, he⟩ := h
      by_cases hm : compMatch c e.name = true <;> simp [hm] at he
      subst he
      have hf := find_of_mem_wf hwf hee
      cases e with
      | file n =>
        have h0 : (Entry.file n).name = n := rfl
        rw [h0] at hf
        simp [statAt, h0, hf]
      | dir n ch =>
        have h0 : (Entry.dir n ch).name = n := rfl
        rw [h0] at hf
        simp [statAt, h0, hf]
    | c2 :: rest2 =>
      simp only [globIn, List.mem_flatMap] at h
      obtain ⟨e, hee, he⟩ := h
      match e with
      | .file n => simp at he
      | .dir n ch =>
        by_cases hm : compMatch c n = true <;> simp [hm] at he
        obtain ⟨m2, hm2, hmm⟩ := he
        subst hmm
        have hf := find_of_mem_wf hwf hee
        have h0 : (Entry.dir n ch).name = n := rfl
        rw [h0] at hf
        have hchwf : fsWF ch = true := by
          have : entryWF (Entry.dir n ch) = true := by
            clear hf ih hm2
            induction es with
            | nil => simp at hee
            | cons x xs ihx =>
              simp only [fsWF, Bool.and_eq_true] at hwf
              rcases List.mem_cons.mp hee with h | h
              · subst h; exact hwf.1.1
              · exact ihx hwf.1.2 h
          simpa [entryWF] using this
        have hne : m2 ≠ [] := by
          have := length_of_mem_globIn hm2
          intro hcon; subst hcon; simp at this
        simp only [statAt]
        rw [hf]
        have : m2.isEmpty = false := by
          cases m2 with
          | nil => exact absurd rfl hne
          | cons a b => simp
        simp only [this, if_false]
        exact ih hchwf hm2

/-- A match of a pattern whose leading components are literals starts
with exactly those literal components. -/
theorem take_of_mem_globIn_lit {es : Fs} {bs : List String} {pat : Pattern}
    {m : List String} (h : m ∈ globIn es (bs.map Comp.lit ++ pat)) :
    m.take bs.length = bs := by
  induction bs generalizing es m with
  | nil => simp
  | cons b bt ih =>
    match hbt : bt.map Comp.lit ++ pat with
    | [] =>
      simp only [List.map_cons, List.cons_append, hbt, globIn, List.mem_filterMap] at h
      obtain ⟨e, _, he⟩ := h
      by_cases hm : compMatch (Comp.lit b) e.name = true <;> simp [hm] at he
      subst he
      have : e.name = b := by simpa [compMatch] using hm
      have hbt0 : bt = [] := by
        cases bt with
        | nil => rfl
        | cons x xs => simp at hbt
      subst hbt0
      simp [this]
    | c2 :: rest2 =>
      simp only [List.map_cons, List.cons_append, hbt, globIn, List.mem_flatMap] at h
      obtain ⟨e, _, he⟩ := h
      match e with
      | .file n => simp at he
      | .dir n ch =>
        by_cases hm : compMatch (Comp.lit b) n = true <;> simp [hm] at he
        obtain ⟨m2, hm2, hmm⟩ := he
        subst hmm
        have hn : n = b := by simpa [compMatch] using hm
        rw [← hbt] at hm2
        have := ih hm2
        simp [List.take, hn, this]

theorem append_drop_of_mem_globIn_lit {es : Fs} {bs : List String} {pat : Pattern}
    {m : List String} (h : m ∈ globIn es (bs.map Comp.lit ++ pat)) :
    bs ++ m.drop bs.length = m := by
  have := take_of_mem_globIn_lit h
  conv_rhs => rw [← List.take_append_drop bs.length m]
  rw [this]

/-! ## Path Matcher (`findGlob`, `findAllGlob`)

```go
func findGlob(base string, dirRecurse bool, pattern string) (matches []string, err error) {
    ms, err := filepath.Glob(filepath.Join(base, pattern))
    ...
    for _, m := range ms {
        if dirRecurse {
            inf, err = os.Stat(m)
            if inf.IsDir() {
                rel, err = filepath.Rel(base, m)
                dirMatches, err = findGlob(base, dirRecurse, filepath.Join(rel, "*"))
                matches = append(matches, dirMatches...)
                continue
            }
        }
        m, err = filepath.Rel(base, m)
        matches = append(matches, m)
    }
    return
}
```

In the embedding a path is its component list; `filepath.Join(base,
pattern)` is `base.map Comp.lit ++ pat`; `filepath.Rel(base, m)` for a
match `m` (whose leading components equal `base`) is
`m.drop base.length`.  The error returns of the Go function (malformed
pattern, `Stat`/`Rel` failure) cannot arise in the modelled pattern
language, where every glob match is a path that exists. -/

def relTo (base m : List String) : List String := m.drop base.length

/-- `findGlob`, with an explicit recursion bound.  The Go recursion
terminates because each recursive call lengthens the pattern by one
component while no glob match can be longer than the deepest existing
path; the embedding makes that bound explicit with a `fuel` argument,
and `findGlobF_congr` below proves the result is the same for every
sufficient fuel, so `findGlob` (with an always-sufficient bound) agrees
with the Go recursion. -/
def findGlobF (root : Fs) (base : List String) (dirRecurse : Bool) :
    Nat → Pattern → List (List String)
  | 0, _ => []
  | fuel + 1, pat =>
    (globIn root (base.map Comp.lit ++ pat)).flatMap
      (fun m =>
        if dirRecurse && isDirAt root m then
          findGlobF root base dirRecurse fuel ((relTo base m).map Comp.lit ++ [Comp.star])
        else
          [relTo base m])

def findGlob (root : Fs) (base : List String) (dirRecurse : Bool) (pat : Pattern) :
    List (List String) :=
  findGlobF root base dirRecurse (fsDepth root + 2) pat

theorem flatMap_congr_mem {α β : Type} {l : List α} {f g : α → List β}
    (h : ∀ a ∈ l, f a = g a) : l.flatMap f = l.flatMap g := by
  induction l with
  | nil => rfl
  | cons x xs ih =>
    simp only [List.flatMap_cons]
    rw [h x (List.mem_cons_self x xs), ih (fun a ha => h a (List.mem_cons_of_mem x ha))]

theorem globIn_nil_of_long {es : Fs} {pat : Pattern} (h : fsDepth es < pat.length) :
    globIn es pat = [] := by
  rw [List.eq_nil_iff_forall_not_mem]
  intro m hm
  have h1 := length_of_mem_globIn hm
  have h2 := mem_globIn_length_le_depth hm
  omega

theorem findGlobF_nil_of_long {root : Fs} {base : List String} {rec : Bool}
    {pat : Pattern} (h : fsDepth root < base.length + pat.length) :
    ∀ fuel, findGlobF root base rec fuel pat = [] := by
  intro fuel
  cases fuel with
  | zero => rfl
  | succ f =>
    have : globIn root (base.map Comp.lit ++ pat) = [] := by
      apply globIn_nil_of_long
      simp only [List.length_append, List.length_map]
      omega
    simp [findGlobF, this]

/-- Fuel-independence: any two sufficient bounds give the same result. -/
theorem findGlobF_congr (root : Fs) (base : List String) (rec : Bool) :
    ∀ f1 f2 pat, fsDepth root + 1 ≤ f1 + (base.length + pat.length) →
      fsDepth root + 1 ≤ f2 + (base.length + pat.length) →
      findGlobF root base rec f1 pat = findGlobF root base rec f2 pat := by
  intro f1
  induction f1 with
  | zero =>
    intro f2 pat h1 h2
    rw [findGlobF, findGlobF_nil_of_long (by omega)]
  | succ f ih =>
    intro f2 pat h1 h2
    cases f2 with
    | zero =>
      rw [findGlobF, findGlobF_nil_of_long (by omega)]
    | succ g =>
      simp only [findGlobF]
      apply flatMap_congr_mem
      intro m hm
      have hlen := length_of_mem_globIn hm
      have hdep := mem_globIn_length_le_depth hm
      simp only [List.length_append, List.length_map] at hlen
      by_cases hdir : (rec && isDirAt root m) = true
      · simp only [hdir, if_true]
        apply ih
        · simp only [relTo, List.length_append, List.length_map, List.length_drop,
            List.length_cons, List.length_nil]
          omega
        · simp only [relTo, List.length_append, List.length_map, List.length_drop,
            List.length_cons, List.length_nil]
          omega
      · simp only [Bool.not_eq_true] at hdir
        simp [hdir]

/-- `ErrUnmatched` carries the patterns that matched nothing. -/
def ErrUnmatched (pats : List Pattern) : Prop := pats ≠ []

/-- The loop body of `findAllGlob`: accumulates matches of every
pattern and, when `mustMatchAll` is set, the patterns with no match. -/
def findAllGlobLoop (root : Fs) (base : List String) (mustMatchAll dirRecurse : Bool) :
    List Pattern → List (List String) → List Pattern →
      List (List String) × List Pattern
  | [], acc, unmatched => (acc, unmatched)
  | p :: ps, acc, unmatched =>
    let ms := findGlob root base dirRecurse p
    findAllGlobLoop root base mustMatchAll dirRecurse ps (acc ++ ms)
      (if mustMatchAll && decide (ms.length < 1) then unmatched ++ [p] else unmatched)

/-- `findAllGlob(base, mustMatchAll, dirRecurse, pattern...)`: the
matches of every pattern in input order, and `some unmatched` (the
`ErrUnmatched` error) exactly when `mustMatchAll` collected at least one
pattern with zero matches. -/
def findAllGlob (root : Fs) (base : List String) (mustMatchAll dirRecurse : Bool)
    (pattern : List Pattern) : List (List String) × Option (List Pattern) :=
  let r := findAllGlobLoop root base mustMatchAll dirRecurse pattern [] []
  (r.1, if r.2.length > 0 then some r.2 else none)

/-! ## Staging (`addFiles`, `addFilesGlob`)

```go
func (d *Database) addFiles(files ...string) (err error) {
    index, err = d.Repo.Index()
    for _, f := range files {
        if err = index.AddByPath(f); err != nil { return }
    }
    return
}

func (d *Database) addFilesGlob(patterns ...string) (err error) {
    files, err := findAllGlob("git", true, true, patterns...)
    if err != nil { return }
    return d.addFiles(files...)
}
```

The repository's index is modelled as the list of staged paths, in
staging order; `Index.AddByPath` succeeds exactly on a path that exists
as a regular file in the working tree `wt` and appends it. -/

inductive StageErr where
  | cannotStage (path : List String)
  deriving Repr, DecidableEq

def addByPath (wt : Fs) (idx : List (List String)) (f : List String) :
    Except StageErr (List (List String)) :=
  if isFileAt wt f then .ok (idx ++ [f]) else .error (.cannotStage f)

def addFiles (wt : Fs) : List (List String) → List (List String) →
    Except StageErr (List (List String))
  | idx, [] => .ok idx
  | idx, f :: fs =>
    match addByPath wt idx f with
    | .error e => .error e
    | .ok idx2 => addFiles wt idx2 fs

inductive GlobStageErr where
  | unmatched (pats : List Pattern)
  | stage (e : StageErr)
  deriving Repr, DecidableEq

/-- `addFilesGlob` from the source: the glob resolution is rooted at
the fixed path `"git"` (the hard-coded store location, resolved against
the process working directory `root`), with `mustMatchAll = true` and
`dirRecurse = true`; the resolved files are then staged into the
repository index (`wt` is the repository's working tree, `idx` its
index). -/
def addFilesGlob (root : Fs) (wt : Fs) (idx : List (List String))
    (patterns : List Pattern) : Except GlobStageErr (List (List String)) :=
  match findAllGlob root ["git"] true true patterns with
  | (_, some u) => .error (.unmatched u)
  | (files, none) =>
    match addFiles wt idx files with
    | .error e => .error (.stage e)
    | .ok idx2 => .ok idx2

/-- Modelled from the claim's words (C6), for comparison with the
source's `addFilesGlob`: the same operation, but with the glob
resolution rooted at the fixed `"vault"` subdirectory (the vault tool's
own root), as the claim states it. -/
def addFilesGlobVaultRooted (root : Fs) (wt : Fs) (idx : List (List String))
    (patterns : List Pattern) : Except GlobStageErr (List (List String)) :=
  match findAllGlob root ["vault"] true true patterns with
  | (_, some u) => .error (.unmatched u)
  | (files, none) =>
    match addFiles wt idx files with
    | .error e => .error (.stage e)
    | .ok idx2 => .ok idx2

/-! ## Repository state and the commit engine

A commit log models the object store: a commit id is a position in the
log.  `head = none` is the "unborn branch" state of a freshly
initialized repository. -/

structure Commit where
  message : String
  parents : List Nat
  tree : List (List String)
  deriving Repr, DecidableEq

structure RepoState where
  head : Option Nat
  commits : List Commit
  index : List (List String)
  deriving Repr, DecidableEq

/-- The state of a freshly initialized repository
(`git.InitRepository`): no commits, unborn head, empty index. -/
def initRepository : RepoState := { head := none, commits := [], index := [] }

structure Reference where
  target : Nat
  deriving Repr, DecidableEq

/-- `Repo.Head()`: fails with `ErrUnbornBranch` when the repository has
no commits yet. -/
def repoHead (r : RepoState) : Except GitError Reference :=
  match r.head with
  | none => .error ⟨.errUnbornBranch, "reference 'refs/heads/master' not found"⟩
  | some h => .ok ⟨h⟩

def lookupCommit (r : RepoState) (oid : Nat) : Except GitError Commit :=
  match r.commits[oid]? with
  | none => .error ⟨.errNotFound, "object not found"⟩
  | some c => .ok c

/-- `(*Database).LastCommit`:

```go
if head, err = d.Repo.Head(); err != nil {
    if gE, ok := err.(*git.GitError); ok && gE.Code == git.ErrUnbornBranch {
        err = nil
    }
    return
}
if c, err = d.Repo.LookupCommit(head.Target()); err != nil { return }
```

The unborn-branch error from `Head()` is swallowed and `(nil, nil)` is
returned; the model returns the head commit's id alongside. -/
def LastCommit (r : RepoState) : Except GitError (Option Nat) :=
  match repoHead r with
  | .error e => if e.code = .errUnbornBranch then .ok none else .error e
  | .ok head =>
    match lookupCommit r head.target with
    | .error e => .error e
    | .ok _ => .ok (some head.target)

/-- `Repo.CreateCommit("HEAD", sig, sig, message, tree, parents...)`:
appends the new commit to the log and advances `HEAD` to it.  The
author/committer signature (fresh per commit, carrying the current
time) does not influence any claim and is not carried in the model. -/
def CreateCommit (r : RepoState) (message : String) (tree : List (List String))
    (parents : List Nat) : Nat × RepoState :=
  (r.commits.length,
   { r with
       commits := r.commits ++ [{ message := message, parents := parents, tree := tree }]
       head := some r.commits.length })

/-- `(*Database).commitIndex(message)`: writes the index to a tree,
looks up the last commit (unborn is not an error), and creates the
commit with zero parents (unborn) or exactly the prior head as its one
parent.  In the model the index is always readable and the tree write
always succeeds (the index holds only staged paths). -/
def commitIndex (r : RepoState) (message : String) : Except GitError (Nat × RepoState) :=
  let tree := r.index
  match LastCommit r with
  | .error e => .error e
  | .ok none => .ok (CreateCommit r message tree [])
  | .ok (some last) => .ok (CreateCommit r message tree [last])

/-! ## Path-matcher theorems -/

theorem findGlobF_output_files (root : Fs) (hwf : fsWF root = true) (base : List String) :
    ∀ fuel pat, ∀ p ∈ findGlobF root base true fuel pat, isFileAt root (base ++ p) = true := by
  intro fuel
  induction fuel with
  | zero => intro pat p hp; simp [findGlobF] at hp
  | succ f ih =>
    intro pat p hp
    simp only [findGlobF, List.mem_flatMap] at hp
    obtain ⟨m, hm, hx⟩ := hp
    by_cases hdir : isDirAt root m = true
    · rw [if_pos (by simp [hdir])] at hx
      exact ih _ p hx
    · rw [if_neg (by simp [hdir])] at hx
      simp only [List.mem_singleton] at hx
      subst hx
      have hdec := append_drop_of_mem_globIn_lit hm
      unfold relTo
      rw [hdec]
      have hs := statAt_isSome_of_mem_globIn hwf hm
      unfold isFileAt
      unfold isDirAt at hdir
      cases hst : statAt root m with
      | none => rw [hst] at hs; simp at hs
      | some b =>
        cases b with
        | true => rw [hst] at hdir; simp at hdir
        | false => simp [hst]

/-- C9: with `recurseIntoDirectories` set, (a) every returned path is a
regular file relative to `base` (in particular a directory match is
never itself included), (b) every non-directory match is included
directly, relative to `base`, and (c) the recursive expansion
`<match>/*` of every directory match is included. -/
theorem findGlob_dir_recursion (root : Fs) (hwf : fsWF root = true)
    (base : List String) (pat : Pattern) :
    (∀ p ∈ findGlob root base true pat, isFileAt root (base ++ p) = true) ∧
    (∀ m ∈ globIn root (base.map Comp.lit ++ pat),
       isDirAt root m = false → relTo base m ∈ findGlob root base true pat) ∧
    (∀ m ∈ globIn root (base.map Comp.lit ++ pat), isDirAt root m = true →
       ∀ q ∈ findGlob root base true ((relTo base m).map Comp.lit ++ [Comp.star]),
         q ∈ findGlob root base true pat) := by
  have hunf : findGlob root base true pat =
      (globIn root (base.map Comp.lit ++ pat)).flatMap
        (fun m =>
          if true && isDirAt root m then
            findGlobF root base true (fsDepth root + 1)
              ((relTo base m).map Comp.lit ++ [Comp.star])
          else
            [relTo base m]) := rfl
  refine ⟨?_, ?_, ?_⟩
  · intro p hp
    exact findGlobF_output_files root hwf base _ pat p hp
  · intro m hm hdir
    rw [hunf]
    refine List.mem_flatMap.mpr ⟨m, hm, ?_⟩
    rw [if_neg (by simp [hdir])]
    exact List.mem_singleton.mpr rfl
  · intro m hm hdir q hq
    rw [hunf]
    refine List.mem_flatMap.mpr ⟨m, hm, ?_⟩
    rw [if_pos (by simp [hdir])]
    have hcongr := findGlobF_congr root base true (fsDepth root + 2) (fsDepth root + 1)
      ((relTo base m).map Comp.lit ++ [Comp.star]) (by omega) (by omega)
    unfold findGlob at hq
    rwa [hcongr] at hq

/-- A concrete tree for the C9 witness: `git/` holds a directory
`keyrings/` (with one file) and a plain `.gitignore` file. -/
def w9root : Fs :=
  [.dir "git" [.dir "keyrings" [.file "pubring.kbx"], .file ".gitignore"]]

theorem findGlob_dir_recursion_witness :
    fsWF w9root = true ∧
    ((∀ p ∈ findGlob w9root ["git"] true [Comp.star],
        isFileAt w9root (["git"] ++ p) = true) ∧
     (∀ m ∈ globIn w9root (["git"].map Comp.lit ++ [Comp.star]),
        isDirAt w9root m = false → relTo ["git"] m ∈ findGlob w9root ["git"] true [Comp.star]) ∧
     (∀ m ∈ globIn w9root (["git"].map Comp.lit ++ [Comp.star]), isDirAt w9root m = true →
        ∀ q ∈ findGlob w9root ["git"] true ((relTo ["git"] m).map Comp.lit ++ [Comp.star]),
          q ∈ findGlob w9root ["git"] true [Comp.star])) :=
  ⟨by decide, findGlob_dir_recursion w9root (by decide) ["git"] [Comp.star]⟩

theorem findAllGlobLoop_spec (root : Fs) (base : List String) (rec : Bool) :
    ∀ ps acc unm, findAllGlobLoop root base true rec ps acc unm =
      (acc ++ ps.flatMap (fun p => findGlob root base rec p),
       unm ++ ps.filter (fun p => (findGlob root base rec p).isEmpty)) := by
  intro ps
  induction ps with
  | nil => intro acc unm; simp [findAllGlobLoop]
  | cons p ps ih =>
    intro acc unm
    simp only [findAllGlobLoop]
    rw [ih]
    cases hms : findGlob root base rec p with
    | nil =>
      simp [hms, List.filter_cons, List.flatMap_cons]
    | cons y ys =>
      simp [hms, List.filter_cons, List.flatMap_cons]

/-- C5: when `mustMatchAll` is set and at least one pattern matches
nothing, `findAllGlob` still returns the matches of every pattern that
did match (all patterns, in input order), and the error names exactly
the patterns with zero matches. -/
theorem findAllGlob_aggregate_unmatched (root : Fs) (base : List String)
    (rec : Bool) (pats : List Pattern)
    (hsome : ∃ p ∈ pats, findGlob root base rec p = []) :
    findAllGlob root base true rec pats =
      (pats.flatMap (fun p => findGlob root base rec p),
       some (pats.filter (fun p => (findGlob root base rec p).isEmpty))) := by
  unfold findAllGlob
  rw [findAllGlobLoop_spec]
  simp only [List.nil_append]
  obtain ⟨p, hp, hem⟩ := hsome
  have hmem : p ∈ pats.filter (fun p => (findGlob root base rec p).isEmpty) :=
    List.mem_filter.mpr ⟨hp, by simp [hem]⟩
  have hlen : 0 < (pats.filter (fun p => (findGlob root base rec p).isEmpty)).length :=
    List.length_pos.mpr (List.ne_nil_of_mem hmem)
  simp [hlen]

/-- A concrete tree for the C5 witness: of the three patterns,
`keyrings` matches (recursively) and `.gitignore` matches, while
`nope` and `missing` match nothing. -/
def w5root : Fs :=
  [.dir "store" [.dir "keyrings" [.file "admins.txt"], .file ".gitignore"]]

theorem findAllGlob_aggregate_unmatched_witness :
    (∃ p ∈ [[Comp.lit "keyrings"], [Comp.lit "nope"], [Comp.lit ".gitignore"], [Comp.lit "missing"]],
        findGlob w5root ["store"] true p = []) ∧
    findAllGlob w5root ["store"] true true
        [[Comp.lit "keyrings"], [Comp.lit "nope"], [Comp.lit ".gitignore"], [Comp.lit "missing"]] =
      ([["keyrings", "admins.txt"], [".gitignore"]],
       some [[Comp.lit "nope"], [Comp.lit "missing"]]) := by
  constructor
  · exact ⟨[Comp.lit "nope"], by decide, by decide⟩
  · rw [findAllGlob_aggregate_unmatched w5root ["store"] true _
      ⟨[Comp.lit "nope"], by decide, by decide⟩]
    decide

/-! ## Staging theorems (C6) -/

theorem addFiles_all_files (wt : Fs) :
    ∀ files idx, (∀ f ∈ files, isFileAt wt f = true) →
      addFiles wt idx files = .ok (idx ++ files) := by
  intro files
  induction files with
  | nil => intro idx _; simp [addFiles]
  | cons f fs ih =>
    intro idx hall
    have hf : isFileAt wt f = true := hall f (List.mem_cons_self f fs)
    simp only [addFiles, addByPath, hf, if_true]
    rw [ih (idx ++ [f]) (fun g hg => hall g (List.mem_cons_of_mem f hg))]
    simp

/-- A concrete counterexample input for C6.  The working directory
holds a `vault` subdirectory containing a file `keyrings`; there is no
`git` directory.  The repository working tree holds the file
`keyrings`. -/
def w6root : Fs := [.dir "vault" [.file "keyrings"]]

def w6wt : Fs := [.file "keyrings"]

/-- C6 counterexample: `addFilesGlob` is not rooted at the fixed
`"vault"` subdirectory.  On a working directory whose `vault`
subdirectory contains a matching file, the vault-rooted resolution the
claim describes succeeds, but the source's `addFilesGlob` fails with an
unmatched-pattern error, because it resolves against the fixed path
`"git"`. -/
theorem addFilesGlob_vault_rooted_counterexample :
    addFilesGlob w6root w6wt [] [[Comp.lit "keyrings"]] ≠
      addFilesGlobVaultRooted w6root w6wt [] [[Comp.lit "keyrings"]] ∧
    addFilesGlob w6root w6wt [] [[Comp.lit "keyrings"]] =
      .error (.unmatched [[Comp.lit "keyrings"]]) ∧
    addFilesGlobVaultRooted w6root w6wt [] [[Comp.lit "keyrings"]] =
      .ok [["keyrings"]] := by
  have h2 : addFilesGlob w6root w6wt [] [[Comp.lit "keyrings"]] =
      .error (.unmatched [[Comp.lit "keyrings"]]) := rfl
  have h3 : addFilesGlobVaultRooted w6root w6wt [] [[Comp.lit "keyrings"]] =
      .ok [["keyrings"]] := rfl
  refine ⟨?_, h2, h3⟩
  rw [h2, h3]
  exact fun h => Except.noConfusion h

/-- C6 (amended): `addFilesGlob` resolves its patterns via the path
matcher rooted at the fixed `"git"` directory (the hard-coded store
location) with `mustMatchAll = true` and `dirRecurse = true`; when no
pattern is unmatched and every resolved path is a regular file of the
working tree, it stages exactly the resolved file list, in order, into
the repository's index; when some pattern is unmatched it fails with
the aggregate unmatched error and stages nothing. -/
theorem addFilesGlob_resolution (root wt : Fs) (idx : List (List String))
    (pats : List Pattern) :
    (∀ u, (findAllGlob root ["git"] true true pats).2 = some u →
       addFilesGlob root wt idx pats = .error (.unmatched u)) ∧
    (∀ files, findAllGlob root ["git"] true true pats = (files, none) →
       (∀ f ∈ files, isFileAt wt f = true) →
       addFilesGlob root wt idx pats = .ok (idx ++ files)) := by
  constructor
  · intro u hu
    unfold addFilesGlob
    cases hres : findAllGlob root ["git"] true true pats with
    | mk files err =>
      rw [hres] at hu
      simp only at hu
      subst hu
      simp
  · intro files hres hall
    unfold addFilesGlob
    rw [hres]
    simp only
    rw [addFiles_all_files wt files idx hall]

def w6root2 : Fs := [.dir "git" [.dir "keyrings" [.file "pubring.kbx"], .file ".gitignore"]]

def w6wt2 : Fs := [.dir "keyrings" [.file "pubring.kbx"], .file ".gitignore"]

theorem addFilesGlob_resolution_witness :
    (findAllGlob w6root2 ["git"] true true [[Comp.lit "keyrings"], [Comp.lit ".gitignore"]] =
       ([["keyrings", "pubring.kbx"], [".gitignore"]], none)) ∧
    (∀ f ∈ [["keyrings", "pubring.kbx"], [".gitignore"]], isFileAt w6wt2 f = true) ∧
    addFilesGlob w6root2 w6wt2 [] [[Comp.lit "keyrings"], [Comp.lit ".gitignore"]] =
      .ok [["keyrings", "pubring.kbx"], [".gitignore"]] := by
  refine ⟨by decide, by decide, ?_⟩
  exact (addFilesGlob_resolution w6root2 w6wt2 [] [[Comp.lit "keyrings"], [Comp.lit ".gitignore"]]).2
    [["keyrings", "pubring.kbx"], [".gitignore"]] (by decide) (by decide)

/-! ## Commit-engine theorems (C3) -/

/-- C3: looking up the head of an unborn repository is a normal
non-error case and the commit is then created with zero parents; a
repository whose head resolves to a commit gets a new commit with
exactly one parent, the prior head.  Hence the first commit of a
freshly initialized repository has zero parents and every subsequent
commit has exactly one. -/
theorem commitIndex_parent_chain (r : RepoState) (msg : String) :
    (r.head = none →
       LastCommit r = .ok none ∧
       commitIndex r msg =
         .ok (r.commits.length,
              { r with
                  commits := r.commits ++ [{ message := msg, parents := [], tree := r.index }]
                  head := some r.commits.length })) ∧
    (∀ h c, r.head = some h → r.commits[h]? = some c →
       LastCommit r = .ok (some h) ∧
       commitIndex r msg =
         .ok (r.commits.length,
              { r with
                  commits := r.commits ++ [{ message := msg, parents := [h], tree := r.index }]
                  head := some r.commits.length })) := by
  constructor
  · intro hnone
    have hlast : LastCommit r = .ok none := by
      unfold LastCommit repoHead
      rw [hnone]
      rfl
    refine ⟨hlast, ?_⟩
    unfold commitIndex
    rw [hlast]
    rfl
  · intro h c hhead hc
    have hlast : LastCommit r = .ok (some h) := by
      unfold LastCommit repoHead lookupCommit
      rw [hhead]
      simp [hc]
    refine ⟨hlast, ?_⟩
    unfold commitIndex
    rw [hlast]
    rfl

/-- A repository holding exactly one root commit, as produced by a
first `commitIndex` on a fresh repository. -/
def w3repo : RepoState :=
  { head := some 0
  , commits := [{ message := "add blackbox submodule", parents := [], tree := [[".gitmodules"]] }]
  , index := [[".gitmodules"], [".gitignore"]] }

theorem commitIndex_parent_chain_witness :
    (LastCommit initRepository = .ok none ∧
     commitIndex initRepository "add blackbox submodule" =
       .ok (0, { initRepository with
                   commits := [{ message := "add blackbox submodule", parents := [], tree := [] }]
                   head := some 0 })) ∧
    (LastCommit w3repo = .ok (some 0) ∧
     commitIndex w3repo "second" =
       .ok (1, { w3repo with
                   commits := w3repo.commits ++
                     [{ message := "second", parents := [0], tree := w3repo.index }]
                   head := some 1 })) := by
  constructor
  · have h := (commitIndex_parent_chain initRepository "add blackbox submodule").1 rfl
    exact ⟨h.1, by rw [h.2]; rfl⟩
  · have h := (commitIndex_parent_chain w3repo "second").2 0
      { message := "add blackbox submodule", parents := [], tree := [[".gitmodules"]] } rfl rfl
    exact ⟨h.1, by rw [h.2]; rfl⟩

/-! ## Repository Command Runner theorem (C2) -/

/-- C2 evaluated on the code: every command built by `cmd` — and hence
every git, vault-tool and key-generation invocation — has its standard
input wired to the caller's real `os.Stdin`, not to the permanently
failing `stdinBlock` reader the source declares (and never uses). -/
theorem cmd_stdin_is_os_stdin :
    (∀ command arguments, (cmd command arguments).stdin = StdinSource.osStdin) ∧
    (∀ dbPath command params,
       (BlackboxCommand dbPath command params).stdin = StdinSource.osStdin) ∧
    StdinSource.osStdin ≠ stdinBlock :=
  ⟨fun _ _ => rfl, fun _ _ _ => rfl, by decide⟩

/-! ## The package error type

A Go `error` value as the pw2 sources can observe it: a git2go error, an
`os` error, a subprocess failure, or one of the package's own error
types (`ErrUnmatched` carrying the unmatched patterns, the staging
failure of `Index.AddByPath`, `ErrInexistant`). -/

inductive Err where
  | git (e : GitError)
  | os (e : OsError)
  | cmd (e : CmdError)
  | unmatched (patterns : List Pattern)
  | stage (e : StageErr)
  | inexistant (paths : List String)
  deriving Repr, DecidableEq

/-! ## Service-identity generation (`GenerateWebGPGUser`, C7)

```go
func (d *Database) GenerateWebGPGUser(password string) (err error) {
    f, err := ioutil.TempFile("", "pw2")
    if err != nil { return }
    defer func() { err = os.Remove(f.Name()) }()
    if _, err = f.WriteString(`...Passphrase: ` + password); err != nil { return }
    if err = os.Mkdir("gpg", defaultMode); err != nil { return }
    if err = cmd("gpg", "--homedir", gpgHomedir, "--gen-key", "--batch", f.Name()).Run(); err != nil {
        return
    }
    return
}
```

The deferred function assigns the result of `os.Remove` to the *named
return value* `err` on every exit path after the temporary file was
created, so whatever the body set `err` to is overwritten.  The
environment `GpgEnv` carries the outcome of each external step; a trace
records which steps actually ran. -/

instance {ε α : Type} [DecidableEq ε] [DecidableEq α] : DecidableEq (Except ε α) :=
  fun a b =>
    match a, b with
    | .error x, .error y =>
      if h : x = y then .isTrue (by rw [h]) else .isFalse (by intro hc; cases hc; exact h rfl)
    | .error _, .ok _ => .isFalse (by intro hc; cases hc)
    | .ok _, .error _ => .isFalse (by intro hc; cases hc)
    | .ok x, .ok y =>
      if h : x = y then .isTrue (by rw [h]) else .isFalse (by intro hc; cases hc; exact h rfl)

structure GpgEnv where
  tempFile : Except OsError String
  writeScript : Option OsError
  mkdirGpg : Option OsError
  runGpg : Option CmdError
  removeTemp : Option OsError
  deriving Repr, DecidableEq

inductive GpgAction where
  | createTempFile
  | writeScript (passphrase : String)
  | mkdir (path : String) (mode : Nat)
  | run (c : Cmd)
  | removeTempFile (name : String)
  deriving Repr, DecidableEq

def GenerateWebGPGUser (env : GpgEnv) (password : String) :
    Option Err × List GpgAction :=
  match env.tempFile with
  | .error e => (some (.os e), [.createTempFile])
  | .ok name =>
    let deferred : Option Err := env.removeTemp.map Err.os
    match env.writeScript with
    | some _ =>
      (deferred, [.createTempFile, .writeScript password, .removeTempFile name])
    | none =>
      match env.mkdirGpg with
      | some _ =>
        (deferred, [.createTempFile, .writeScript password,
                    .mkdir "gpg" defaultMode, .removeTempFile name])
      | none =>
        match env.runGpg with
        | some _ =>
          (deferred, [.createTempFile, .writeScript password,
                      .mkdir "gpg" defaultMode,
                      .run (cmd "gpg" ["--homedir", gpgHomedir, "--gen-key", "--batch", name]),
                      .removeTempFile name])
        | none =>
          (deferred, [.createTempFile, .writeScript password,
                      .mkdir "gpg" defaultMode,
                      .run (cmd "gpg" ["--homedir", gpgHomedir, "--gen-key", "--batch", name]),
                      .removeTempFile name])

/-- C7: once the temporary batch-script file has been created, the
function's returned error is exactly the result of removing that file,
whatever the write, mkdir and key-generation steps did; in particular a
failed external tool with a successful removal yields a nil error. -/
theorem GenerateWebGPGUser_returns_remove_result (env : GpgEnv) (password name : String)
    (h : env.tempFile = .ok name) :
    (GenerateWebGPGUser env password).1 = env.removeTemp.map Err.os ∧
    (env.removeTemp = none → (GenerateWebGPGUser env password).1 = none) := by
  constructor
  · unfold GenerateWebGPGUser
    rw [h]
    cases env.writeScript <;> cases env.mkdirGpg <;> cases env.runGpg <;> rfl
  · intro hrm
    unfold GenerateWebGPGUser
    rw [h, hrm]
    cases env.writeScript <;> cases env.mkdirGpg <;> cases env.runGpg <;> rfl

/-- A C7 witness environment: the external key-generation tool fails,
the removal of the temporary file succeeds. -/
def w7env : GpgEnv :=
  { tempFile := .ok "/tmp/pw2-batch"
  , writeScript := none
  , mkdirGpg := none
  , runGpg := some { command := "gpg"
                   , arguments := ["--homedir", gpgHomedir, "--gen-key", "--batch", "/tmp/pw2-batch"] }
  , removeTemp := none }

theorem GenerateWebGPGUser_returns_remove_result_witness :
    w7env.tempFile = .ok "/tmp/pw2-batch" ∧
    (GenerateWebGPGUser w7env "hunter2").1 = w7env.removeTemp.map Err.os ∧
    (GenerateWebGPGUser w7env "hunter2").1 = none :=
  ⟨rfl,
   (GenerateWebGPGUser_returns_remove_result w7env "hunter2" "/tmp/pw2-batch" rfl).1,
   (GenerateWebGPGUser_returns_remove_result w7env "hunter2" "/tmp/pw2-batch" rfl).2 rfl⟩

/-! ## Sub-repository integration (`detachedHeadPull`, C8)

```go
func detachedHeadPull(r *git.Repository) (err error) {
    origin, err = r.Remotes.Lookup("origin")          // fail if absent
    err = origin.Fetch([]string{}, &git.FetchOptions{}, "")
    err = r.SetHead("refs/remotes/origin/master")
    ref, err = r.Head()
    commit, err = r.LookupCommit(ref.Target())
    err = r.ResetToCommit(commit, git.ResetHard, &git.CheckoutOpts{
        Strategy: git.CheckoutForce, DirMode: 0700, FileMode: 0700,
    })
    return
}
```

Each engine operation's outcome comes from a `PullEnv`; the trace
records the exact operation sequence with its arguments. -/

inductive ResetKind where
  | soft
  | mixed
  | hard
  deriving Repr, DecidableEq

inductive CheckoutStrategy where
  | safe
  | force
  deriving Repr, DecidableEq

inductive PullAction where
  | lookupRemote (name : String)
  | fetch (refspecs : List String)
  | setHead (ref : String)
  | readHead
  | lookupCommit (oid : Nat)
  | resetToCommit (oid : Nat) (kind : ResetKind) (strategy : CheckoutStrategy)
      (dirMode fileMode : Nat)
  deriving Repr, DecidableEq

structure PullEnv where
  hasOrigin : Bool
  fetch : Option GitError
  setHead : Option GitError
  headTarget : Except GitError Nat
  lookup : Option GitError
  reset : Option GitError
  deriving Repr, DecidableEq

/-- A local-branch reference lives under `refs/heads/`; setting the
head to any other reference detaches it (libgit2 `SetHead` semantics). -/
def isLocalBranchRef (ref : String) : Bool := ref.take 11 == "refs/heads/"

def detachedHeadPull (env : PullEnv) : Option GitError × List PullAction :=
  if !env.hasOrigin then
    (some { code := .errNotFound, message := "remote 'origin' does not exist" },
     [.lookupRemote "origin"])
  else
    match env.fetch with
    | some e => (some e, [.lookupRemote "origin", .fetch []])
    | none =>
      match env.setHead with
      | some e =>
        (some e, [.lookupRemote "origin", .fetch [], .setHead "refs/remotes/origin/master"])
      | none =>
        match env.headTarget with
        | .error e =>
          (some e, [.lookupRemote "origin", .fetch [],
                    .setHead "refs/remotes/origin/master", .readHead])
        | .ok t =>
          match env.lookup with
          | some e =>
            (some e, [.lookupRemote "origin", .fetch [],
                      .setHead "refs/remotes/origin/master", .readHead, .lookupCommit t])
          | none =>
            match env.reset with
            | some e =>
              (some e, [.lookupRemote "origin", .fetch [],
                        .setHead "refs/remotes/origin/master", .readHead, .lookupCommit t,
                        .resetToCommit t .hard .force defaultMode defaultMode])
            | none =>
              (none, [.lookupRemote "origin", .fetch [],
                      .setHead "refs/remotes/origin/master", .readHead, .lookupCommit t,
                      .resetToCommit t .hard .force defaultMode defaultMode])

/-- C8: `detachedHeadPull` fails if no remote named "origin" is
configured, having done nothing else; otherwise, when each engine step
succeeds, it performs exactly: a full fetch with no explicit refspec
filter, a head move to the fixed remote default-branch reference
`refs/remotes/origin/master` (not a local-branch ref, hence detached),
resolution of that reference to its target commit, and a hard reset to
that commit with forced-overwrite checkout and fixed 0700 file and
directory modes. -/
theorem detachedHeadPull_sequence (env : PullEnv) :
    (env.hasOrigin = false →
       (detachedHeadPull env).2 = [.lookupRemote "origin"] ∧
       ∃ e, (detachedHeadPull env).1 = some e) ∧
    (∀ t, env.hasOrigin = true → env.fetch = none → env.setHead = none →
       env.headTarget = .ok t → env.lookup = none → env.reset = none →
       detachedHeadPull env =
         (none, [.lookupRemote "origin", .fetch [],
                 .setHead "refs/remotes/origin/master", .readHead, .lookupCommit t,
                 .resetToCommit t .hard .force defaultMode defaultMode])) ∧
    isLocalBranchRef "refs/remotes/origin/master" = false := by
  refine ⟨?_, ?_, by decide⟩
  · intro h
    unfold detachedHeadPull
    rw [h]
    exact ⟨rfl, _, rfl⟩
  · intro t h1 h2 h3 h4 h5 h6
    unfold detachedHeadPull
    rw [h1, h2, h3, h4, h5, h6]
    rfl

/-- A C8 witness environment: origin configured, every step succeeds,
the remote default branch resolves to commit 7. -/
def w8env : PullEnv :=
  { hasOrigin := true, fetch := none, setHead := none
  , headTarget := .ok 7, lookup := none, reset := none }

def w8envNoOrigin : PullEnv :=
  { hasOrigin := false, fetch := none, setHead := none
  , headTarget := .error { code := .errNotFound, message := "" }
  , lookup := none, reset := none }

theorem detachedHeadPull_sequence_witness :
    ((detachedHeadPull w8envNoOrigin).2 = [.lookupRemote "origin"] ∧
     ∃ e, (detachedHeadPull w8envNoOrigin).1 = some e) ∧
    detachedHeadPull w8env =
      (none, [.lookupRemote "origin", .fetch [],
              .setHead "refs/remotes/origin/master", .readHead, .lookupCommit 7,
              .resetToCommit 7 .hard .force defaultMode defaultMode]) :=
  ⟨(detachedHeadPull_sequence w8envNoOrigin).1 rfl,
   (detachedHeadPull_sequence w8env).2.1 7 rfl rfl rfl rfl rfl rfl⟩

/-! ## Opening a database (`Open`, `DatabaseNotFound`, C4)

```go
//Func DatabaseNotFound returns true if err is a git2go not found error
//("object not found").  This error would be returned for example when
//you're trying to load a database from a directory which doesn't yet
//exist.
func DatabaseNotFound(err error) bool {
    v, ok := err.(*git.GitError)
    return ok && v.Code == git.ErrNotFound
}

func Open(location string) (d Database, err error) {
    d.Path = location
    if d.Repo, err = git.OpenRepository(location); err != nil { return }
    return
}
```

What sits at the location is modelled by `LocationState`; libgit2's
`OpenRepository` returns a not-found git error when nothing is there
(per the engine interface in the spec and the source's own doc comment
above), the state's own error when the location holds something that is
not an openable repository, and the repository otherwise. -/

structure Database where
  Path : String
  Repo : RepoState
  deriving Repr, DecidableEq

inductive LocationState where
  | absent
  | repo (r : RepoState)
  | failing (e : GitError)
  deriving Repr, DecidableEq

def OpenRepository : LocationState → Except GitError RepoState
  | .absent => .error { code := .errNotFound, message := "could not find repository" }
  | .repo r => .ok r
  | .failing e => .error e

def DatabaseNotFound : Err → Bool
  | .git e => e.code == .errNotFound
  | _ => false

/-- The actions `Open` may record; shared with the `Create` models
below so that "performs no bootstrap steps" is expressible. -/
inductive Action where
  | mkdir (path : String) (mode : Nat)
  | initRepo (path : String)
  | openRepo (path : String)
  | submoduleAdd (url : String) (path : String)
  | submoduleOpen
  | detachedPull (sub : List PullAction)
  | submoduleAddToIndex (writeIndex : Bool)
  | stageFiles (files : List (List String))
  | stageGlob (patterns : List Pattern)
  | commit (message : String)
  | run (c : Cmd)
  | generateWebGPGUser (sub : List GpgAction)
  deriving Repr, DecidableEq

/-- `Open`: opens the repository at the location and performs nothing
else (its trace is the single open call). -/
def Open (world : LocationState) (location : String) :
    Except Err Database × List Action :=
  (match OpenRepository world with
   | .error e => .error (.git e)
   | .ok r => .ok { Path := location, Repo := r },
   [.openRepo location])

/-- C4: on a location with no repository, `Open` fails and
`DatabaseNotFound` holds of its error; on any other open failure `Open`
returns the underlying error, of which `DatabaseNotFound` does not hold
(provided, per the engine model, that failure is not itself coded
not-found); and `Open` records no action besides the single repository
open — no bootstrap step. -/
theorem Open_not_found_classification (location : String) :
    ((Open .absent location).1 =
        .error (.git { code := .errNotFound, message := "could not find repository" }) ∧
     ∀ e, (Open .absent location).1 = .error e → DatabaseNotFound e = true) ∧
    (∀ e, e.code ≠ .errNotFound →
       (Open (.failing e) location).1 = .error (.git e) ∧
       DatabaseNotFound (.git e) = false) ∧
    (∀ world, (Open world location).2 = [.openRepo location]) := by
  refine ⟨⟨rfl, ?_⟩, ?_, fun _ => rfl⟩
  · intro e he
    have : e = .git { code := .errNotFound, message := "could not find repository" } := by
      have h0 : (Open .absent location).1 =
          .error (.git { code := .errNotFound, message := "could not find repository" }) := rfl
      rw [h0] at he
      cases he
      rfl
    rw [this]
    rfl
  · intro e hne
    refine ⟨rfl, ?_⟩
    unfold DatabaseNotFound
    simpa using hne

theorem Open_not_found_classification_witness :
    ((Open .absent "git").1 =
        .error (.git { code := .errNotFound, message := "could not find repository" }) ∧
     DatabaseNotFound (.git { code := .errNotFound, message := "could not find repository" }) = true) ∧
    ((Open (.failing { code := .other 3, message := "repository corrupt" }) "git").1 =
        .error (.git { code := .other 3, message := "repository corrupt" }) ∧
     DatabaseNotFound (.git { code := .other 3, message := "repository corrupt" }) = false) ∧
    (Open (.repo initRepository) "git").2 = [.openRepo "git"] := by
  refine ⟨⟨(Open_not_found_classification "git").1.1, ?_⟩, ?_, (Open_not_found_classification "git").2.2 _⟩
  · exact (Open_not_found_classification "git").1.2 _ rfl
  · exact (Open_not_found_classification "git").2.1 { code := .other 3, message := "repository corrupt" }
      (by decide)

/-! ## Database creation, libgit2 variant (`Create`, source with
`git2go`; C1/C10)

```go
func Create(location string, webPassword string) (d Database, err error) {
    d.Path = location
    if err = os.Mkdir(location, defaultMode); err != nil { return }
    if d.Repo, err = git.InitRepository(location, false); err != nil { return }
    if md, err = d.Repo.Submodules.Add(blackboxSubmoduleLocation, "blackbox", false); ...
    if mdRepo, err = md.Open(); ...
    if err = detachedHeadPull(mdRepo); ...
    if err = md.AddToIndex(true); ...
    if err = d.addFiles(".gitmodules"); ...
    if _, err = d.commitIndex("add blackbox submodule"); ...
    if err = d.BlackboxCommand("initialize", "yes").Run(); ...
    if err = d.addFilesGlob("keyrings", ".gitignore"); ...
    if _, err = d.commitIndex("🔒 initialize blackbox 🔒"); ...
    if webPassword != "" {
        if err = d.GenerateWebGPGUser(webPassword); ...
        if err = d.BlackboxCommand("addadmin", gpgUserEmail, path.Join("..", gpgHomedir)).Run(); ...
        if err = d.addFiles("keyrings/live/pubring.kbx", "keyrings/live/trustdb.gpg",
            "keyrings/live/blackbox-admins.txt"); ...
        if _, err = d.commitIndex("+ add web client as blackbox admin"); ...
    }
    return
}
```

`dirs` is the set of directories that already exist (`os.Mkdir` fails
with an exists error on a member and otherwise creates the directory);
the external steps' outcomes come from `CreateEnv`, whose filesystem
snapshots (`wt1`, `cwd2`, `wt2`, `wt3`) are what the working tree and
the process working directory hold when each staging step runs (the
submodule checkout and the vault tool create those files).  Staging and
committing run through the `addFiles`/`addFilesGlob`/`commitIndex`
models above on a real `RepoState`.  `path.Join("..", "./gpg")` is
`"../gpg"`. -/

structure CreateEnv where
  initRepo : Option GitError
  submoduleAdd : Option GitError
  submoduleOpen : Option GitError
  pull : PullEnv
  addToIndex : Option GitError
  wt1 : Fs
  blackboxInit : Option CmdError
  cwd2 : Fs
  wt2 : Fs
  gpg : GpgEnv
  addadmin : Option CmdError
  wt3 : Fs
  deriving Repr

def globStageErrToErr : GlobStageErr → Err
  | .unmatched u => .unmatched u
  | .stage e => .stage e

def adminArtifacts : List (List String) :=
  [["keyrings", "live", "pubring.kbx"],
   ["keyrings", "live", "trustdb.gpg"],
   ["keyrings", "live", "blackbox-admins.txt"]]

def createBody (env : CreateEnv) (location : String) (webPassword : String) :
    Except Err Database × List Action :=
  let t1 := [Action.initRepo location]
  match env.initRepo with
  | some e => (.error (.git e), t1)
  | none =>
  let r0 := initRepository
  let t2 := t1 ++ [Action.submoduleAdd blackboxSubmoduleLocation "blackbox"]
  match env.submoduleAdd with
  | some e => (.error (.git e), t2)
  | none =>
  let t3 := t2 ++ [Action.submoduleOpen]
  match env.submoduleOpen with
  | some e => (.error (.git e), t3)
  | none =>
  let pr := detachedHeadPull env.pull
  let t4 := t3 ++ [Action.detachedPull pr.2]
  match pr.1 with
  | some e => (.error (.git e), t4)
  | none =>
  let t5 := t4 ++ [Action.submoduleAddToIndex true]
  match env.addToIndex with
  | some e => (.error (.git e), t5)
  | none =>
  let t6 := t5 ++ [Action.stageFiles [[".gitmodules"]]]
  match addFiles env.wt1 r0.index [[".gitmodules"]] with
  | .error se => (.error (.stage se), t6)
  | .ok idx1 =>
  let r1 : RepoState := { r0 with index := idx1 }
  let t7 := t6 ++ [Action.commit "add blackbox submodule"]
  match commitIndex r1 "add blackbox submodule" with
  | .error e => (.error (.git e), t7)
  | .ok (_, r2) =>
  let t8 := t7 ++ [Action.run (BlackboxCommand location "initialize" ["yes"])]
  match env.blackboxInit with
  | some ce => (.error (.cmd ce), t8)
  | none =>
  let t9 := t8 ++ [Action.stageGlob [[Comp.lit "keyrings"], [Comp.lit ".gitignore"]]]
  match addFilesGlob env.cwd2 env.wt2 r2.index [[Comp.lit "keyrings"], [Comp.lit ".gitignore"]] with
  | .error ge => (.error (globStageErrToErr ge), t9)
  | .ok idx2 =>
  let r3 : RepoState := { r2 with index := idx2 }
  let t10 := t9 ++ [Action.commit "🔒 initialize blackbox 🔒"]
  match commitIndex r3 "🔒 initialize blackbox 🔒" with
  | .error e => (.error (.git e), t10)
  | .ok (_, r4) =>
  if webPassword != "" then
    let g := GenerateWebGPGUser env.gpg webPassword
    let t11 := t10 ++ [Action.generateWebGPGUser g.2]
    match g.1 with
    | some e => (.error e, t11)
    | none =>
    let t12 := t11 ++ [Action.run (BlackboxCommand location "addadmin" [gpgUserEmail, "../gpg"])]
    match env.addadmin with
    | some ce => (.error (.cmd ce), t12)
    | none =>
    let t13 := t12 ++ [Action.stageFiles adminArtifacts]
    match addFiles env.wt3 r4.index adminArtifacts with
    | .error se => (.error (.stage se), t13)
    | .ok idx3 =>
    let r5 : RepoState := { r4 with index := idx3 }
    let t14 := t13 ++ [Action.commit "+ add web client as blackbox admin"]
    match commitIndex r5 "+ add web client as blackbox admin" with
    | .error e => (.error (.git e), t14)
    | .ok (_, r6) => (.ok { Path := location, Repo := r6 }, t14)
  else
    (.ok { Path := location, Repo := r4 }, t10)

def Create (dirs : List String) (env : CreateEnv) (location : String)
    (webPassword : String) : Except Err Database × List Action × List String :=
  if location ∈ dirs then
    (.error (.os (.exist location)), [.mkdir location defaultMode], dirs)
  else
    let r := createBody env location webPassword
    (r.1, .mkdir location defaultMode :: r.2, dirs ++ [location])

/-! ## Database creation, git-CLI variant (`Create`, source
`pkg/pw2/pw2.go`; C1)

```go
func Create(location string, webPassword []byte) (d Database, err error) {
    d.Path = location
    if err = os.Mkdir(location, defaultMode); err != nil { return }
    if err = d.gitCmd("init").Run(); err != nil { return }
    if err = d.gitCmd("submodule", "add", blackboxSubmoduleLocation, "blackbox").Run(); ...
    if err = d.gitCmd("commit", "-m", "add blackbox submodule").Run(); ...
    if err = d.BlackboxCommand("initialize", "yes").Run(); ...
    if err = d.gitCmd("add", "--", "keyrings", ".gitignore").Run(); ...
    if err = d.gitCmd("commit", "-m", "🔒 initialize blackbox 🔒").Run(); ...
    if webPassword == nil {
        if err = d.GenerateWebGPGUser(webPassword); ...
        webPassword = nil
        if err = d.BlackboxCommand("addadmin", gpgUserEmail, path.Join("..", gpgHomedir)).Run(); ...
        if err = d.gitCmd("add", "--", "keyrings/live/pubring.kbx", "keyrings/live/trustdb.gpg",
            "keyrings/live/blackbox-admins.txt").Run(); ...
        if err = d.gitCmd("commit", "-m", "+ add web client as blackbox admin").Run(); ...
    }
    return
}
```

The passphrase is a `[]byte`; `none` models the nil slice (the value the
command-line entry point passes when no passphrase was collected), and
the guard of the service-identity block is `webPassword == nil`, i.e. the
block runs exactly when the passphrase is *absent*.  Formatting a nil
slice with `%s` yields the empty string, so the generation step receives
an empty passphrase.  This variant's `Database` carries only the path. -/

def gitCmd (dbPath : String) (arguments : List String) : Cmd :=
  { cmd "git" arguments with dir := some dbPath }

structure DatabasePkg where
  Path : String
  deriving Repr, DecidableEq

structure CreatePkgEnv where
  gitInit : Option CmdError
  submoduleAdd : Option CmdError
  commitSubmodule : Option CmdError
  blackboxInit : Option CmdError
  addKeyrings : Option CmdError
  commitInit : Option CmdError
  gpg : GpgEnv
  addadmin : Option CmdError
  addAdminFiles : Option CmdError
  commitAdmin : Option CmdError
  deriving Repr, DecidableEq

def createPkgBody (env : CreatePkgEnv) (location : String) (webPassword : Option String) :
    Except Err DatabasePkg × List Action :=
  let t1 := [Action.run (gitCmd location ["init"])]
  match env.gitInit with
  | some e => (.error (.cmd e), t1)
  | none =>
  let t2 := t1 ++ [Action.run (gitCmd location
    ["submodule", "add", blackboxSubmoduleLocation, "blackbox"])]
  match env.submoduleAdd with
  | some e => (.error (.cmd e), t2)
  | none =>
  let t3 := t2 ++ [Action.run (gitCmd location ["commit", "-m", "add blackbox submodule"])]
  match env.commitSubmodule with
  | some e => (.error (.cmd e), t3)
  | none =>
  let t4 := t3 ++ [Action.run (BlackboxCommand location "initialize" ["yes"])]
  match env.blackboxInit with
  | some e => (.error (.cmd e), t4)
  | none =>
  let t5 := t4 ++ [Action.run (gitCmd location ["add", "--", "keyrings", ".gitignore"])]
  match env.addKeyrings with
  | some e => (.error (.cmd e), t5)
  | none =>
  let t6 := t5 ++ [Action.run (gitCmd location ["commit", "-m", "🔒 initialize blackbox 🔒"])]
  match env.commitInit with
  | some e => (.error (.cmd e), t6)
  | none =>
  match webPassword with
  | some _ => (.ok { Path := location }, t6)
  | none =>
  let g := GenerateWebGPGUser env.gpg ""
  let t7 := t6 ++ [Action.generateWebGPGUser g.2]
  match g.1 with
  | some e => (.error e, t7)
  | none =>
  let t8 := t7 ++ [Action.run (BlackboxCommand location "addadmin" [gpgUserEmail, "../gpg"])]
  match env.addadmin with
  | some e => (.error (.cmd e), t8)
  | none =>
  let t9 := t8 ++ [Action.run (gitCmd location
    ["add", "--", "keyrings/live/pubring.kbx", "keyrings/live/trustdb.gpg",
     "keyrings/live/blackbox-admins.txt"])]
  match env.addAdminFiles with
  | some e => (.error (.cmd e), t9)
  | none =>
  let t10 := t9 ++ [Action.run (gitCmd location
    ["commit", "-m", "+ add web client as blackbox admin"])]
  match env.commitAdmin with
  | some e => (.error (.cmd e), t10)
  | none => (.ok { Path := location }, t10)

def CreatePkg (dirs : List String) (env : CreatePkgEnv) (location : String)
    (webPassword : Option String) : Except Err DatabasePkg × List Action × List String :=
  if location ∈ dirs then
    (.error (.os (.exist location)), [.mkdir location defaultMode], dirs)
  else
    let r := createPkgBody env location webPassword
    (r.1, .mkdir location defaultMode :: r.2, dirs ++ [location])

/-! ## Lifecycle theorems (C1, C10) -/

/-- A commit step: a `commitIndex` call, or a `git commit` subprocess. -/
def isCommitAction : Action → Bool
  | .run c => c.command == "git" && c.arguments.take 1 == ["commit"]
  | .commit _ => true
  | _ => false

def isGenerateIdentityAction : Action → Bool
  | .generateWebGPGUser _ => true
  | _ => false

/-- An `addadmin` vault-tool invocation. -/
def isAddadminAction : Action → Bool
  | .run c => c.command == "bash" && c.arguments.take 1 == ["blackbox/bin/blackbox_addadmin"]
  | _ => false

/-- An all-success environment for the git-CLI `Create`. -/
def wPkgEnvOk : CreatePkgEnv :=
  { gitInit := none, submoduleAdd := none, commitSubmodule := none
  , blackboxInit := none, addKeyrings := none, commitInit := none
  , gpg := { tempFile := .ok "/tmp/pw2-batch", writeScript := none, mkdirGpg := none
           , runGpg := none, removeTemp := none }
  , addadmin := none, addAdminFiles := none, commitAdmin := none }

/-- C1 evaluated on the code at the failing input: the `pkg/pw2`
variant's service-identity block is gated by `webPassword == nil`, so
with an *empty* (nil) passphrase `Create` runs identity generation, the
`addadmin` vault-tool step and a third commit, while with a non-empty
passphrase it skips all of them and stops after the two base
commits. -/
theorem CreatePkg_passphrase_gate_inverted :
    ((CreatePkg [] wPkgEnvOk "git" none).2.1.countP isCommitAction = 3 ∧
     (CreatePkg [] wPkgEnvOk "git" none).2.1.any isGenerateIdentityAction = true ∧
     (CreatePkg [] wPkgEnvOk "git" none).2.1.any isAddadminAction = true) ∧
    ((CreatePkg [] wPkgEnvOk "git" (some "hunter2")).2.1.countP isCommitAction = 2 ∧
     (CreatePkg [] wPkgEnvOk "git" (some "hunter2")).2.1.any isGenerateIdentityAction = false ∧
     (CreatePkg [] wPkgEnvOk "git" (some "hunter2")).2.1.any isAddadminAction = false ∧
     (CreatePkg [] wPkgEnvOk "git" (some "hunter2")).2.1.filter isCommitAction =
       [.run (gitCmd "git" ["commit", "-m", "add blackbox submodule"]),
        .run (gitCmd "git" ["commit", "-m", "🔒 initialize blackbox 🔒"])]) := by
  refine ⟨⟨?_, ?_, ?_⟩, ?_, ?_, ?_, ?_⟩ <;> decide

/-- The submodule checkout the vault tool produced, as both the store
directory contents (under `cwd2/git`) and the repository working
tree. -/
def keyringsTree : List Entry :=
  [.dir "keyrings" [.dir "live"
     [.file "pubring.kbx", .file "trustdb.gpg", .file "blackbox-admins.txt"]],
   .file ".gitignore"]

/-- An all-success environment for the libgit2 `Create`. -/
def wEnvOk : CreateEnv :=
  { initRepo := none, submoduleAdd := none, submoduleOpen := none
  , pull := w8env, addToIndex := none
  , wt1 := [.file ".gitmodules"]
  , blackboxInit := none
  , cwd2 := [.dir "git" keyringsTree]
  , wt2 := keyringsTree
  , gpg := { tempFile := .ok "/tmp/pw2-batch", writeScript := none, mkdirGpg := none
           , runGpg := none, removeTemp := none }
  , addadmin := none
  , wt3 := keyringsTree }

/-- The libgit2 `Create` with an empty passphrase performs the base
bootstrap only: two commits (root commit "add blackbox submodule", then
"🔒 initialize blackbox 🔒" with the root as its one parent), the head
at the second, and neither identity generation nor an `addadmin` run. -/
theorem Create_empty_passphrase_base_bootstrap :
    (Create [] wEnvOk "git" "").2.1.countP isCommitAction = 2 ∧
    (Create [] wEnvOk "git" "").2.1.any isGenerateIdentityAction = false ∧
    (Create [] wEnvOk "git" "").2.1.any isAddadminAction = false ∧
    (∃ d, (Create [] wEnvOk "git" "").1 = .ok d ∧
       d.Repo.head = some 1 ∧
       d.Repo.commits.map Commit.message =
         ["add blackbox submodule", "🔒 initialize blackbox 🔒"] ∧
       d.Repo.commits.map Commit.parents = [[], [0]]) := by
  refine ⟨by decide, by decide, by decide, ?_⟩
  exact ⟨_, rfl, by decide, by decide, by decide⟩

/-- C10: `Create` is not idempotent.  On a location that already
exists, `Create` fails at once with the directory-exists error, its
trace holding nothing but the failed `mkdir` — no repository
initialization, no other bootstrap step; and a successful `Create`
leaves the location existing, so a second `Create` there fails that
way. -/
theorem Create_not_idempotent :
    (∀ dirs env loc pw, loc ∈ dirs →
        Create dirs env loc pw = (.error (.os (.exist loc)), [.mkdir loc defaultMode], dirs)) ∧
    (∀ dirs env1 env2 loc pwA pwB d t1 dirs2,
        Create dirs env1 loc pwA = (.ok d, t1, dirs2) →
        Create dirs2 env2 loc pwB =
          (.error (.os (.exist loc)), [.mkdir loc defaultMode], dirs2)) := by
  have hfail : ∀ dirs env loc pw, loc ∈ dirs →
      Create dirs env loc pw = (.error (.os (.exist loc)), [.mkdir loc defaultMode], dirs) := by
    intro dirs env loc pw h
    unfold Create
    rw [if_pos h]
  refine ⟨hfail, ?_⟩
  intro dirs env1 env2 loc pwA pwB d t1 dirs2 h
  by_cases hmem : loc ∈ dirs
  · rw [hfail dirs env1 loc pwA hmem] at h
    simp at h
  · have h22 : (Create dirs env1 loc pwA).2.2 = dirs ++ [loc] := by
      unfold Create
      rw [if_neg hmem]
    rw [h] at h22
    simp only at h22
    subst h22
    exact hfail _ env2 loc pwB (List.mem_append_right dirs (List.mem_singleton.mpr rfl))

theorem Create_not_idempotent_witness :
    (∃ d t, Create [] wEnvOk "git" "" = (.ok d, t, ["git"])) ∧
    Create ["git"] wEnvOk "git" "" =
      (.error (.os (.exist "git")), [.mkdir "git" defaultMode], ["git"]) := by
  have h1 : ∃ d t, Create [] wEnvOk "git" "" = (.ok d, t, ["git"]) := ⟨_, _, rfl⟩
  obtain ⟨d, t, hdt⟩ := h1
  exact ⟨⟨d, t, hdt⟩,
         Create_not_idempotent.2 [] wEnvOk wEnvOk "git" "" "" d t ["git"] hdt⟩

end PW2
